import Mathlib

/-!
Verification of the DynamoDB-backed key/value store in `dynamodb_store.go`
(repository JEEN/rkms).

The store keeps per-identifier encrypted data keys in a DynamoDB table and
fronts it with an in-process expiring cache (patrickmn/go-cache).  We embed
the two operations, `GetEncryptedDataKeys` and
`SetEncryptedDataKeysConditionally`, as pure functions on an explicit state:

* `State.table` models the durable DynamoDB table: an association list from
  identifier to the stored raw item.  A raw item is either well-formed
  (decodes into an `Item` via `dynamodbattribute.UnmarshalMap`) or corrupt
  (the unmarshal fails).
* `State.cache` models the go-cache instance: an association list of
  entries `(id, keys, expiration)`.  Per go-cache, `expiration = 0` means
  the entry never expires, and an entry with `expiration > 0` is considered
  expired (a miss) exactly when `now > expiration`.  `cache.New` maps a
  configured default expiration of `0` to `NoExpiration`, so a TTL of `0`
  in our model makes `Set` store `expiration = 0`.
* `State.now` is the current wall-clock instant; the operations read it but
  never advance it (time advances between calls, see `run`).

Transient failures of the SDK calls (`GetItemWithContext`,
`PutItemWithContext`) are modelled by an explicit oracle argument: `none`
means the backend call behaves according to the table, `some e` means the
call returns the error `e`.  For the put path the injected string is the
AWS error code, because the Go code inspects
`awserr.Error.Code()` to recognise `ConditionalCheckFailedException`.
-/

/-- Mapping from key name to encrypted key material (Go `map[string]string`). -/
abbrev KeysMap := List (String × String)

/-- The Go struct `item { ID string; Keys map[string]string }`. -/
structure Item where
  ID : String
  Keys : KeysMap
  deriving DecidableEq, Repr

/-- A stored DynamoDB item as returned by `GetItemWithContext`: either it
decodes into an `Item`, or `dynamodbattribute.UnmarshalMap` fails on it. -/
inductive RawItem where
  | wellFormed (id : String) (keys : KeysMap)
  | corrupt (id : String)
  deriving DecidableEq, Repr

/-- The partition-key value of a raw item (attribute `id`). -/
def RawItem.rid : RawItem → String
  | .wellFormed i _ => i
  | .corrupt i => i

/-- The Go `dynamodb.ErrCodeConditionalCheckFailedException` constant. -/
def condCheckFailedCode : String := "ConditionalCheckFailedException"

/-- Errors the store surfaces to callers: an error propagated from the AWS
SDK call, a `dynamodbattribute.UnmarshalMap` failure, or the repository's
`IDAlreadyExistsStoreError\x7bID: id\x7d`. -/
inductive StoreErr where
  | backend (e : String)
  | unmarshal
  | idAlreadyExists (id : String)
  deriving DecidableEq, Repr

/-- Combined state of the durable table, the go-cache contents, and the
current time. -/
structure State where
  table : List (String × RawItem)
  cache : List (String × KeysMap × Nat)
  now : Nat
  deriving DecidableEq, Repr

/-- Point lookup in the durable table (first entry wins; DynamoDB keys are
unique, and inserts below only ever add a fresh key). -/
def lookupTable : List (String × RawItem) → String → Option RawItem
  | [], _ => none
  | (k, v) :: rest, id => if k = id then some v else lookupTable rest id

/-- The go-cache `Get`: the most recent entry for the key answers; an entry
with `expiration > 0` is a miss once `now > expiration`; `expiration = 0`
never expires. -/
def cacheGet : List (String × KeysMap × Nat) → Nat → String → Option KeysMap
  | [], _, _ => none
  | (k, keys, exp) :: rest, now, id =>
    if k = id then
      if 0 < exp ∧ exp < now then none else some keys
    else cacheGet rest now id

/-- The go-cache `Set` with `cache.DefaultExpiration`: the configured TTL
decides the entry's absolute expiration instant; a configured TTL of `0`
was converted to `NoExpiration` by `cache.New`, so the entry gets
`expiration = 0` and never expires. -/
def cacheSet (c : List (String × KeysMap × Nat)) (now ttl : Nat) (id : String)
    (keys : KeysMap) : List (String × KeysMap × Nat) :=
  (id, keys, if 0 < ttl then now + ttl else 0) :: c

/-- The Go `dynamodbattribute.UnmarshalMap(result.Item, &item)`. -/
def unmarshalMap : RawItem → Except Unit Item
  | .wellFormed rid keys => .ok ⟨rid, keys⟩
  | .corrupt _ => .error ()

/-- The Go `dynamodbattribute.MarshalMap(item)`: the marshalled raw item
together with the (possible) marshal error.  For the `item` struct the
marshaller always succeeds and produces the faithful encoding. -/
def marshalMap (it : Item) : RawItem × Option String :=
  (.wellFormed it.ID it.Keys, none)

/-- The Go `ConditionExpression` string of the conditional put. -/
def conditionExpression : String := "attribute_not_exists(id)"

/-- Outcome of `PutItemWithContext` with `ConditionExpression =
attribute_not_exists(id)`: either the new table after a successful insert,
or an AWS error code. -/
inductive PutOutcome where
  | ok (newTable : List (String × RawItem))
  | err (code : String)
  deriving DecidableEq, Repr

/-- The conditional put against the durable table.  `fault = some code`
models a transient SDK failure with that AWS error code; otherwise DynamoDB
atomically rejects the write (with `ConditionalCheckFailedException`) when
the key is present and inserts it when absent. -/
def putCond (table : List (String × RawItem)) (raw : RawItem)
    (fault : Option String) : PutOutcome :=
  match fault with
  | some code => .err code
  | none =>
    match lookupTable table raw.rid with
    | some _ => .err condCheckFailedCode
    | none => .ok ((raw.rid, raw) :: table)

/-- Embedding of `GetEncryptedDataKeys`.  `ttl` is the store's configured
cache expiration; `fault = some e` makes `GetItemWithContext` return the
error `e`. -/
def getEncryptedDataKeys (ttl : Nat) (st : State) (id : String)
    (fault : Option String) : Except StoreErr (Option KeysMap) × State :=
  match cacheGet st.cache st.now id with
  | some keys => (.ok (some keys), st)
  | none =>
    match fault with
    | some e => (.error (.backend e), st)
    | none =>
      match lookupTable st.table id with
      | none => (.ok none, st)
      | some raw =>
        match unmarshalMap raw with
        | .error _ => (.error .unmarshal, st)
        | .ok it =>
          (.ok (some it.Keys),
            { st with cache := cacheSet st.cache st.now ttl id it.Keys })

/-- Core of `SetEncryptedDataKeysConditionally`, taking the result of
`MarshalMap` as the pair `(marshalledItem, merr)`: the Go code binds `err`
from `MarshalMap` and immediately shadows it with the `PutItemWithContext`
error, so `merr` is deliberately unused here, exactly as in the source. -/
def setCore (ttl : Nat) (st : State) (id : String)
    (encryptedKeysMap : KeysMap) (marshalledItem : RawItem)
    (merr : Option String) (fault : Option String) :
    Option StoreErr × State :=
  let _ := merr
  match putCond st.table marshalledItem fault with
  | .err code =>
    if code = condCheckFailedCode then (some (.idAlreadyExists id), st)
    else (some (.backend code), st)
  | .ok newTable =>
    (none,
      { st with
        table := newTable
        cache := cacheSet st.cache st.now ttl id encryptedKeysMap })

/-- Embedding of `SetEncryptedDataKeysConditionally`. -/
def setEncryptedDataKeysConditionally (ttl : Nat) (st : State) (id : String)
    (encryptedKeysMap : KeysMap) (fault : Option String) :
    Option StoreErr × State :=
  let it : Item := { ID := id, Keys := encryptedKeysMap }
  let m := marshalMap it
  setCore ttl st id encryptedKeysMap m.1 m.2 fault

/-- An external interaction with the store: a read, a conditional write, or
the passage of `d` units of time between calls. -/
inductive Event where
  | getEv (id : String)
  | setEv (id : String) (keys : KeysMap)
  | tick (d : Nat)
  deriving DecidableEq, Repr

/-- Externally observed result of one call. -/
inductive Obs where
  | gotObs (r : Except StoreErr (Option KeysMap))
  | setObs (r : Option StoreErr)
  deriving Repr

/-- Fault-free execution of a sequence of events, collecting the externally
observed results. -/
def run (ttl : Nat) (st : State) : List Event → List Obs × State
  | [] => ([], st)
  | Event.getEv id :: rest =>
    let r := getEncryptedDataKeys ttl st id none
    let rec' := run ttl r.2 rest
    (Obs.gotObs r.1 :: rec'.1, rec'.2)
  | Event.setEv id keys :: rest =>
    let r := setEncryptedDataKeysConditionally ttl st id keys none
    let rec' := run ttl r.2 rest
    (Obs.setObs r.1 :: rec'.1, rec'.2)
  | Event.tick d :: rest =>
    run ttl { st with now := st.now + d } rest

/-- Every cache entry names an identifier present in the durable table
(C7's invariant). -/
def CacheInTable (st : State) : Prop :=
  ∀ e ∈ st.cache, (lookupTable st.table e.1).isSome

/-- A cache entry is backed by the table: the table holds a well-formed
record under that identifier whose keys are exactly the cached keys. -/
def EntryBacked (table : List (String × RawItem))
    (e : String × KeysMap × Nat) : Prop :=
  ∃ rid, lookupTable table e.1 = some (RawItem.wellFormed rid e.2.1)

/-- Every cache entry (live or expired) is backed by the table. -/
def CacheSound (st : State) : Prop :=
  ∀ e ∈ st.cache, EntryBacked st.table e

/-- The cache-free reference semantics of a read: answer directly from the
durable table. -/
def pureGet (table : List (String × RawItem)) (id : String) :
    Except StoreErr (Option KeysMap) :=
  match lookupTable table id with
  | none => .ok none
  | some (.wellFormed _ keys) => .ok (some keys)
  | some (.corrupt _) => .error .unmarshal

/-- The cache-free reference semantics of a conditional write: the result
returned to the caller. -/
def pureSetRes (table : List (String × RawItem)) (id : String) :
    Option StoreErr :=
  match lookupTable table id with
  | some _ => some (.idAlreadyExists id)
  | none => none

/-- The cache-free reference semantics of a conditional write: the durable
table afterwards. -/
def pureSetTable (table : List (String × RawItem)) (id : String)
    (keys : KeysMap) : List (String × RawItem) :=
  match lookupTable table id with
  | some _ => table
  | none => (id, RawItem.wellFormed id keys) :: table

/-- A sample table holding one record that fails to decode. -/
def wTable : List (String × RawItem) := [("b", RawItem.corrupt "b")]

/-- A sample state over `wTable` with an empty cache. -/
def wState : State := { table := wTable, cache := [], now := 0 }

/-- A sample state with an empty table and empty cache. -/
def emptyState : State := { table := [], cache := [], now := 0 }

/-- Point lookups stay defined after consing a fresh entry onto the table. -/
theorem lookupTable_cons_isSome (table : List (String × RawItem)) (k : String)
    (v : RawItem) (id : String) (h : (lookupTable table id).isSome) :
    (lookupTable ((k, v) :: table) id).isSome := by
  simp only [lookupTable]
  split <;> simp [h]

/-- A cache hit returns an entry actually present in the cache. -/
theorem cacheGet_mem (c : List (String × KeysMap × Nat)) (now : Nat)
    (id : String) (keys : KeysMap) (h : cacheGet c now id = some keys) :
    ∃ exp, (id, keys, exp) ∈ c := by
  induction c with
  | nil => simp [cacheGet] at h
  | cons e rest ih =>
    obtain ⟨k, ks, exp⟩ := e
    simp only [cacheGet] at h
    by_cases hk : k = id
    · subst hk
      rw [if_pos rfl] at h
      by_cases hx : 0 < exp ∧ exp < now
      · rw [if_pos hx] at h; cases h
      · rw [if_neg hx] at h
        injection h with h2
        subst h2
        exact ⟨exp, List.mem_cons_self _ _⟩
    · rw [if_neg hk] at h
      obtain ⟨exp2, hmem⟩ := ih h
      exact ⟨exp2, List.mem_cons_of_mem _ hmem⟩

/-- C4: for an identifier with no durable record and no live cache entry,
`GetEncryptedDataKeys` returns an absent result (`nil` mapping) with no
error, and leaves the state unchanged. -/
theorem getUnknownIdReturnsAbsent (ttl : Nat) (st : State) (id : String)
    (hT : lookupTable st.table id = none)
    (hC : cacheGet st.cache st.now id = none) :
    getEncryptedDataKeys ttl st id none = (Except.ok none, st) := by
  simp [getEncryptedDataKeys, hT, hC]

/-- Witness for `getUnknownIdReturnsAbsent` at a concrete input. -/
theorem getUnknownIdReturnsAbsent_witness :
    getEncryptedDataKeys 5 wState "a" none = (Except.ok none, wState) :=
  getUnknownIdReturnsAbsent 5 wState "a" (by decide) (by decide)

/-- C10: a read of an identifier absent from the durable table never
mutates the state, whatever the cache holds and whether the backend call
fails, so no negative caching takes place and subsequent reads of the
still-absent identifier go back to the backend. -/
theorem getAbsentLeavesStateUnchanged (ttl : Nat) (st : State) (id : String)
    (fault : Option String) (hT : lookupTable st.table id = none) :
    (getEncryptedDataKeys ttl st id fault).2 = st := by
  unfold getEncryptedDataKeys
  cases hc : cacheGet st.cache st.now id <;> cases fault <;> simp [hT, hc]

/-- Witness for `getAbsentLeavesStateUnchanged` at a concrete input. -/
theorem getAbsentLeavesStateUnchanged_witness :
    (getEncryptedDataKeys 5 wState "a" none).2 = wState :=
  getAbsentLeavesStateUnchanged 5 wState "a" none (by decide)

/-- C6: when the durable table holds a record for the identifier but the
record fails to decode, `GetEncryptedDataKeys` surfaces an error rather
than an absent result. -/
theorem getDecodeFailureIsError (ttl : Nat) (st : State) (id : String)
    (raw : RawItem) (hT : lookupTable st.table id = some raw)
    (hU : unmarshalMap raw = Except.error ())
    (hC : cacheGet st.cache st.now id = none) :
    getEncryptedDataKeys ttl st id none = (Except.error StoreErr.unmarshal, st) := by
  simp [getEncryptedDataKeys, hC, hT, hU]

/-- Witness for `getDecodeFailureIsError` at a concrete input. -/
theorem getDecodeFailureIsError_witness :
    getEncryptedDataKeys 5 wState "b" none = (Except.error StoreErr.unmarshal, wState) :=
  getDecodeFailureIsError 5 wState "b" (RawItem.corrupt "b") (by decide) rfl (by decide)

/-- C3: the outcome of `SetEncryptedDataKeysConditionally` is independent of
the in-memory cache: from two states that differ only in their cache, the
operation returns the same result and produces the same durable table — the
cache is never read, and uniqueness is decided solely by the backend's
atomic conditional insert. -/
theorem setOutcomeIgnoresCache (ttl : Nat) (table : List (String × RawItem))
    (c1 c2 : List (String × KeysMap × Nat)) (now : Nat) (id : String)
    (keys : KeysMap) (fault : Option String) :
    (setEncryptedDataKeysConditionally ttl ⟨table, c1, now⟩ id keys fault).1
      = (setEncryptedDataKeysConditionally ttl ⟨table, c2, now⟩ id keys fault).1
    ∧ (setEncryptedDataKeysConditionally ttl ⟨table, c1, now⟩ id keys fault).2.table
      = (setEncryptedDataKeysConditionally ttl ⟨table, c2, now⟩ id keys fault).2.table := by
  unfold setEncryptedDataKeysConditionally setCore putCond marshalMap
  cases fault with
  | some code => by_cases h : code = condCheckFailedCode <;> simp [h]
  | none =>
    cases hT : lookupTable table (RawItem.rid (RawItem.wellFormed id keys)) <;>
      simp [hT, condCheckFailedCode]

/-- C9: the `MarshalMap` error is discarded by
`SetEncryptedDataKeysConditionally`: `setCore` returns the same answer for
every marshal-error value, the conditional insert is attempted with
whatever raw item the marshaller produced, and the returned error is
determined by the put outcome alone. -/
theorem marshalErrorNeverReturned (ttl : Nat) (st : State) (id : String)
    (keys : KeysMap) (mraw : RawItem) (merr : Option String)
    (fault : Option String) :
    setCore ttl st id keys mraw merr fault = setCore ttl st id keys mraw none fault
    ∧ (setCore ttl st id keys mraw merr fault).1 =
      (match putCond st.table mraw fault with
       | PutOutcome.err code =>
         some (if code = condCheckFailedCode then StoreErr.idAlreadyExists id
               else StoreErr.backend code)
       | PutOutcome.ok _ => none) := by
  refine ⟨rfl, ?_⟩
  unfold setCore
  cases po : putCond st.table mraw fault with
  | ok newTable => simp
  | err code => by_cases h : code = condCheckFailedCode <;> simp [h]

/-- C5: no failure path mutates the cache: if `GetEncryptedDataKeys`
returns an error, or `SetEncryptedDataKeysConditionally` returns any error
(including `IDAlreadyExistsStoreError`), the cache after the call equals
the cache before it. -/
theorem failurePathsLeaveCacheUntouched (ttl : Nat) (st : State) (id : String)
    (keys : KeysMap) (gfault sfault : Option String) (e1 e2 : StoreErr) :
    ((getEncryptedDataKeys ttl st id gfault).1 = Except.error e1 →
      (getEncryptedDataKeys ttl st id gfault).2.cache = st.cache)
    ∧ ((setEncryptedDataKeysConditionally ttl st id keys sfault).1 = some e2 →
      (setEncryptedDataKeysConditionally ttl st id keys sfault).2.cache = st.cache) := by
  constructor
  · intro h
    unfold getEncryptedDataKeys at h ⊢
    cases hc : cacheGet st.cache st.now id with
    | some ks => simp [hc] at h
    | none =>
      cases gfault with
      | some e => simp [hc]
      | none =>
        cases hT : lookupTable st.table id with
        | none => simp [hc, hT] at h
        | some raw =>
          cases hU : unmarshalMap raw with
          | error u => simp [hc, hT, hU]
          | ok it => simp [hc, hT, hU] at h
  · intro h
    unfold setEncryptedDataKeysConditionally setCore putCond marshalMap at h ⊢
    cases sfault with
    | some code => by_cases hcode : code = condCheckFailedCode <;> simp [hcode]
    | none =>
      cases hT : lookupTable st.table (RawItem.rid (RawItem.wellFormed id keys)) with
      | some raw => simp [hT]
      | none => simp [hT] at h

/-- Witness for `failurePathsLeaveCacheUntouched`: a decode failure on the
read path and a conditional-check failure on the write path both leave the
cache of `wState` unchanged. -/
theorem failurePathsLeaveCacheUntouched_witness :
    (getEncryptedDataKeys 5 wState "b" none).2.cache = wState.cache
    ∧ (setEncryptedDataKeysConditionally 5 wState "b" [("k", "v")] none).2.cache
      = wState.cache :=
  ⟨(failurePathsLeaveCacheUntouched 5 wState "b" [("k", "v")] none none
      StoreErr.unmarshal (StoreErr.idAlreadyExists "b")).1 rfl,
   (failurePathsLeaveCacheUntouched 5 wState "b" [("k", "v")] none none
      StoreErr.unmarshal (StoreErr.idAlreadyExists "b")).2 rfl⟩

/-- A freshly inserted cache entry is a hit at the insertion instant,
whatever the configured TTL (a positive TTL gives a future expiration, a
zero TTL gives a never-expiring entry). -/
theorem cacheGet_cacheSet_self (c : List (String × KeysMap × Nat))
    (now ttl : Nat) (id : String) (keys : KeysMap) :
    cacheGet (cacheSet c now ttl id keys) now id = some keys := by
  by_cases h : 0 < ttl
  · have hs : cacheSet c now ttl id keys = (id, keys, now + ttl) :: c := by
      unfold cacheSet; rw [if_pos h]
    rw [hs]
    unfold cacheGet
    rw [if_pos rfl, if_neg (by omega)]
  · have hs : cacheSet c now ttl id keys = (id, keys, 0) :: c := by
      unfold cacheSet; rw [if_neg h]
    rw [hs]
    unfold cacheGet
    rw [if_pos rfl, if_neg (by omega)]

/-- A successful conditional write implies the identifier was absent from
the durable table. -/
theorem setSuccessImpliesAbsent (ttl : Nat) (st : State) (id : String)
    (keys : KeysMap)
    (h : (setEncryptedDataKeysConditionally ttl st id keys none).1 = none) :
    lookupTable st.table id = none := by
  cases hT0 : lookupTable st.table id with
  | none => rfl
  | some raw =>
    unfold setEncryptedDataKeysConditionally setCore putCond marshalMap at h
    simp [RawItem.rid, hT0] at h

/-- After a successful conditional write the state is the old one with the
well-formed record inserted into the table and the caller-supplied keys
inserted into the cache. -/
theorem setSuccessState (ttl : Nat) (st : State) (id : String)
    (keys : KeysMap) (hT : lookupTable st.table id = none) :
    setEncryptedDataKeysConditionally ttl st id keys none =
      (none,
        { st with
          table := (id, RawItem.wellFormed id keys) :: st.table
          cache := cacheSet st.cache st.now ttl id keys }) := by
  unfold setEncryptedDataKeysConditionally setCore putCond marshalMap
  simp [RawItem.rid, hT]

/-- C1: the create-once contract: once a conditional write for `id`
succeeds, a second conditional write for the same `id` fails with
`IDAlreadyExistsStoreError` carrying that `id` and changes nothing, and a
read after the failed second write still returns the first write's keys. -/
theorem createOnceContract (ttl : Nat) (st : State) (id : String)
    (keys1 keys2 : KeysMap)
    (h : (setEncryptedDataKeysConditionally ttl st id keys1 none).1 = none) :
    (setEncryptedDataKeysConditionally ttl
        (setEncryptedDataKeysConditionally ttl st id keys1 none).2 id keys2 none).1
      = some (StoreErr.idAlreadyExists id)
    ∧ (setEncryptedDataKeysConditionally ttl
        (setEncryptedDataKeysConditionally ttl st id keys1 none).2 id keys2 none).2
      = (setEncryptedDataKeysConditionally ttl st id keys1 none).2
    ∧ (getEncryptedDataKeys ttl
        (setEncryptedDataKeysConditionally ttl
          (setEncryptedDataKeysConditionally ttl st id keys1 none).2 id keys2 none).2
        id none).1 = Except.ok (some keys1) := by
  have hT := setSuccessImpliesAbsent ttl st id keys1 h
  rw [setSuccessState ttl st id keys1 hT]
  have hlook2 : lookupTable ((id, RawItem.wellFormed id keys1) :: st.table) id
      = some (RawItem.wellFormed id keys1) := by simp [lookupTable]
  have hset2 : setEncryptedDataKeysConditionally ttl
      { st with
        table := (id, RawItem.wellFormed id keys1) :: st.table
        cache := cacheSet st.cache st.now ttl id keys1 } id keys2 none
      = (some (StoreErr.idAlreadyExists id),
         { st with
           table := (id, RawItem.wellFormed id keys1) :: st.table
           cache := cacheSet st.cache st.now ttl id keys1 }) := by
    unfold setEncryptedDataKeysConditionally setCore putCond marshalMap
    simp [RawItem.rid, hlook2]
  rw [hset2]
  refine ⟨rfl, rfl, ?_⟩
  unfold getEncryptedDataKeys
  rw [show ({ st with
        table := (id, RawItem.wellFormed id keys1) :: st.table
        cache := cacheSet st.cache st.now ttl id keys1 } : State).cache
      = cacheSet st.cache st.now ttl id keys1 from rfl]
  rw [cacheGet_cacheSet_self]

/-- Witness for `createOnceContract`: from the empty store, registering
keys for "a" once succeeds, a second registration fails with the identifier
in the error, and the read still returns the first keys. -/
theorem createOnceContract_witness :
    (setEncryptedDataKeysConditionally 5
        (setEncryptedDataKeysConditionally 5 emptyState "a" [("k", "v1")] none).2
        "a" [("k", "v2")] none).1 = some (StoreErr.idAlreadyExists "a")
    ∧ (setEncryptedDataKeysConditionally 5
        (setEncryptedDataKeysConditionally 5 emptyState "a" [("k", "v1")] none).2
        "a" [("k", "v2")] none).2
      = (setEncryptedDataKeysConditionally 5 emptyState "a" [("k", "v1")] none).2
    ∧ (getEncryptedDataKeys 5
        (setEncryptedDataKeysConditionally 5
          (setEncryptedDataKeysConditionally 5 emptyState "a" [("k", "v1")] none).2
          "a" [("k", "v2")] none).2
        "a" none).1 = Except.ok (some [("k", "v1")]) :=
  createOnceContract 5 emptyState "a" [("k", "v1")] [("k", "v2")] rfl

/-- C2: read-your-write: right after a successful conditional write of a
non-empty mapping, a read of the same identifier returns exactly the
written mapping. -/
theorem readYourWrite (ttl : Nat) (st : State) (id : String) (keys : KeysMap)
    (_hne : keys ≠ [])
    (h : (setEncryptedDataKeysConditionally ttl st id keys none).1 = none) :
    (getEncryptedDataKeys ttl
      (setEncryptedDataKeysConditionally ttl st id keys none).2 id none).1
      = Except.ok (some keys) := by
  have hT := setSuccessImpliesAbsent ttl st id keys h
  rw [setSuccessState ttl st id keys hT]
  unfold getEncryptedDataKeys
  rw [show ({ st with
        table := (id, RawItem.wellFormed id keys) :: st.table
        cache := cacheSet st.cache st.now ttl id keys } : State).cache
      = cacheSet st.cache st.now ttl id keys from rfl]
  rw [cacheGet_cacheSet_self]

/-- Witness for `readYourWrite` at a concrete input. -/
theorem readYourWrite_witness :
    (getEncryptedDataKeys 5
      (setEncryptedDataKeysConditionally 5 emptyState "a" [("k", "v1")] none).2
      "a" none).1 = Except.ok (some [("k", "v1")]) :=
  readYourWrite 5 emptyState "a" [("k", "v1")] (by decide) rfl

/-- Equation: a live cache hit answers immediately and changes nothing. -/
theorem get_hit (ttl : Nat) (st : State) (id : String) (fault : Option String)
    (ks : KeysMap) (h : cacheGet st.cache st.now id = some ks) :
    getEncryptedDataKeys ttl st id fault = (Except.ok (some ks), st) := by
  unfold getEncryptedDataKeys; rw [h]

/-- Equation: on a cache miss a failing backend read propagates the error
and changes nothing. -/
theorem get_backend_fault (ttl : Nat) (st : State) (id : String) (e : String)
    (h : cacheGet st.cache st.now id = none) :
    getEncryptedDataKeys ttl st id (some e)
      = (Except.error (StoreErr.backend e), st) := by
  unfold getEncryptedDataKeys; rw [h]

/-- Equation: cache miss, identifier absent from the table. -/
theorem get_miss_absent (ttl : Nat) (st : State) (id : String)
    (hc : cacheGet st.cache st.now id = none)
    (hT : lookupTable st.table id = none) :
    getEncryptedDataKeys ttl st id none = (Except.ok none, st) := by
  unfold getEncryptedDataKeys; rw [hc, hT]

/-- Equation: cache miss, stored record fails to decode. -/
theorem get_miss_corrupt (ttl : Nat) (st : State) (id rid : String)
    (hc : cacheGet st.cache st.now id = none)
    (hT : lookupTable st.table id = some (RawItem.corrupt rid)) :
    getEncryptedDataKeys ttl st id none
      = (Except.error StoreErr.unmarshal, st) := by
  unfold getEncryptedDataKeys; rw [hc, hT]; rfl

/-- Equation: cache miss, stored record decodes; the decoded keys are
returned and cached. -/
theorem get_miss_wellFormed (ttl : Nat) (st : State) (id rid : String)
    (ks : KeysMap) (hc : cacheGet st.cache st.now id = none)
    (hT : lookupTable st.table id = some (RawItem.wellFormed rid ks)) :
    getEncryptedDataKeys ttl st id none
      = (Except.ok (some ks),
         { st with cache := cacheSet st.cache st.now ttl id ks }) := by
  unfold getEncryptedDataKeys; rw [hc, hT]; rfl

/-- Equation: a conditional write for an identifier already in the table
fails with the identifier in the error and changes nothing. -/
theorem set_alreadyExists (ttl : Nat) (st : State) (id : String)
    (keys : KeysMap) (raw : RawItem)
    (hT : lookupTable st.table id = some raw) :
    setEncryptedDataKeysConditionally ttl st id keys none
      = (some (StoreErr.idAlreadyExists id), st) := by
  unfold setEncryptedDataKeysConditionally setCore putCond marshalMap
  simp [RawItem.rid, hT]

/-- Equation: a conditional write under an injected SDK fault returns the
fault (recognising the conditional-check code) and changes nothing. -/
theorem set_backend_fault (ttl : Nat) (st : State) (id : String)
    (keys : KeysMap) (code : String) :
    setEncryptedDataKeysConditionally ttl st id keys (some code)
      = (some (if code = condCheckFailedCode then StoreErr.idAlreadyExists id
               else StoreErr.backend code), st) := by
  unfold setEncryptedDataKeysConditionally setCore putCond marshalMap
  by_cases h : code = condCheckFailedCode <;> simp [h]

/-- C7: both operations preserve the invariant that every cache entry names
an identifier currently present in the durable table; an entry can only
appear in the cache at a moment when the table holds that identifier. -/
theorem cacheInTablePreserved (ttl : Nat) (st : State) (id : String)
    (keys : KeysMap) (gfault sfault : Option String)
    (hInv : CacheInTable st) :
    CacheInTable (getEncryptedDataKeys ttl st id gfault).2
    ∧ CacheInTable (setEncryptedDataKeysConditionally ttl st id keys sfault).2 := by
  constructor
  · cases hc : cacheGet st.cache st.now id with
    | some ks => rw [get_hit ttl st id gfault ks hc]; exact hInv
    | none =>
      cases gfault with
      | some e => rw [get_backend_fault ttl st id e hc]; exact hInv
      | none =>
        cases hT : lookupTable st.table id with
        | none => rw [get_miss_absent ttl st id hc hT]; exact hInv
        | some raw =>
          cases raw with
          | corrupt rid => rw [get_miss_corrupt ttl st id rid hc hT]; exact hInv
          | wellFormed rid ks =>
            rw [get_miss_wellFormed ttl st id rid ks hc hT]
            intro e he
            simp only [cacheSet, List.mem_cons] at he
            rcases he with rfl | he2
            · simp [hT]
            · exact hInv e he2
  · cases sfault with
    | some code => rw [set_backend_fault ttl st id keys code]; exact hInv
    | none =>
      cases hT : lookupTable st.table id with
      | some raw => rw [set_alreadyExists ttl st id keys raw hT]; exact hInv
      | none =>
        rw [setSuccessState ttl st id keys hT]
        intro e he
        simp only [cacheSet, List.mem_cons] at he
        rcases he with rfl | he2
        · simp [lookupTable]
        · exact lookupTable_cons_isSome st.table id _ e.1 (hInv e he2)

/-- Witness for `cacheInTablePreserved`: from a state with an empty cache
both operations yield states whose cache entries all name identifiers
present in the table. -/
theorem cacheInTablePreserved_witness :
    CacheInTable (getEncryptedDataKeys 5 wState "a" none).2
    ∧ CacheInTable (setEncryptedDataKeysConditionally 5 wState "a" [("k", "v")] none).2 :=
  cacheInTablePreserved 5 wState "a" [("k", "v")] none none
    (fun e he => absurd he (by simp [wState]))

/-- Unfolding equation for `run` on a read event. -/
theorem run_get (ttl : Nat) (st : State) (id : String) (rest : List Event) :
    run ttl st (Event.getEv id :: rest)
      = (Obs.gotObs (getEncryptedDataKeys ttl st id none).1 ::
          (run ttl (getEncryptedDataKeys ttl st id none).2 rest).1,
         (run ttl (getEncryptedDataKeys ttl st id none).2 rest).2) := rfl

/-- Unfolding equation for `run` on a write event. -/
theorem run_set (ttl : Nat) (st : State) (id : String) (keys : KeysMap)
    (rest : List Event) :
    run ttl st (Event.setEv id keys :: rest)
      = (Obs.setObs (setEncryptedDataKeysConditionally ttl st id keys none).1 ::
          (run ttl (setEncryptedDataKeysConditionally ttl st id keys none).2 rest).1,
         (run ttl (setEncryptedDataKeysConditionally ttl st id keys none).2 rest).2) := rfl

/-- Unfolding equation for `run` on the passage of time. -/
theorem run_tick (ttl : Nat) (st : State) (d : Nat) (rest : List Event) :
    run ttl st (Event.tick d :: rest)
      = run ttl { st with now := st.now + d } rest := rfl

/-- Under `CacheSound`, a fault-free read answers exactly as the cache-free
reference semantics `pureGet`, keeps the durable table, and preserves
`CacheSound`. -/
theorem get_agrees (ttl : Nat) (st : State) (id : String) (hS : CacheSound st) :
    (getEncryptedDataKeys ttl st id none).1 = pureGet st.table id
    ∧ (getEncryptedDataKeys ttl st id none).2.table = st.table
    ∧ CacheSound (getEncryptedDataKeys ttl st id none).2 := by
  cases hc : cacheGet st.cache st.now id with
  | some ks =>
    obtain ⟨exp, hmem⟩ := cacheGet_mem st.cache st.now id ks hc
    obtain ⟨rid, hrid⟩ := hS (id, ks, exp) hmem
    rw [get_hit ttl st id none ks hc]
    refine ⟨?_, rfl, hS⟩
    unfold pureGet
    rw [hrid]
  | none =>
    cases hT : lookupTable st.table id with
    | none =>
      rw [get_miss_absent ttl st id hc hT]
      exact ⟨by unfold pureGet; rw [hT], rfl, hS⟩
    | some raw =>
      cases raw with
      | corrupt rid =>
        rw [get_miss_corrupt ttl st id rid hc hT]
        exact ⟨by unfold pureGet; rw [hT], rfl, hS⟩
      | wellFormed rid ks =>
        rw [get_miss_wellFormed ttl st id rid ks hc hT]
        refine ⟨by unfold pureGet; rw [hT], rfl, ?_⟩
        intro e he
        simp only [cacheSet, List.mem_cons] at he
        rcases he with rfl | he2
        · exact ⟨rid, hT⟩
        · exact hS e he2

/-- Under `CacheSound`, a fault-free conditional write answers exactly as
the cache-free reference semantics, transforms the durable table the same
way, and preserves `CacheSound`. -/
theorem set_agrees (ttl : Nat) (st : State) (id : String) (keys : KeysMap)
    (hS : CacheSound st) :
    (setEncryptedDataKeysConditionally ttl st id keys none).1
      = pureSetRes st.table id
    ∧ (setEncryptedDataKeysConditionally ttl st id keys none).2.table
      = pureSetTable st.table id keys
    ∧ CacheSound (setEncryptedDataKeysConditionally ttl st id keys none).2 := by
  cases hT : lookupTable st.table id with
  | some raw =>
    rw [set_alreadyExists ttl st id keys raw hT]
    exact ⟨by unfold pureSetRes; rw [hT], by unfold pureSetTable; rw [hT], hS⟩
  | none =>
    rw [setSuccessState ttl st id keys hT]
    refine ⟨by unfold pureSetRes; rw [hT], by unfold pureSetTable; rw [hT], ?_⟩
    intro e he
    simp only [cacheSet, List.mem_cons] at he
    rcases he with rfl | he2
    · exact ⟨id, by simp [lookupTable]⟩
    · obtain ⟨r, hr⟩ := hS e he2
      refine ⟨r, ?_⟩
      have hne : ¬(id = e.1) := by
        intro hh
        rw [← hh] at hr
        rw [hT] at hr
        cases hr
      unfold lookupTable
      rw [if_neg hne]
      exact hr

/-- Two runs of the same fault-free event sequence from states sharing a
durable table, each with a sound cache, produce the same observations and
the same final table, whatever their configured TTLs. -/
theorem run_obs_agree (ttl1 ttl2 : Nat) (evs : List Event) :
    ∀ st1 st2 : State, st1.table = st2.table → CacheSound st1 → CacheSound st2 →
      (run ttl1 st1 evs).1 = (run ttl2 st2 evs).1
      ∧ (run ttl1 st1 evs).2.table = (run ttl2 st2 evs).2.table := by
  induction evs with
  | nil => intro st1 st2 hTab h1 h2; exact ⟨rfl, hTab⟩
  | cons ev rest ih =>
    intro st1 st2 hTab h1 h2
    cases ev with
    | getEv id =>
      obtain ⟨hr1, ht1, hs1⟩ := get_agrees ttl1 st1 id h1
      obtain ⟨hr2, ht2, hs2⟩ := get_agrees ttl2 st2 id h2
      have hhead : (getEncryptedDataKeys ttl1 st1 id none).1
          = (getEncryptedDataKeys ttl2 st2 id none).1 := by
        rw [hr1, hr2, hTab]
      have htab2 : (getEncryptedDataKeys ttl1 st1 id none).2.table
          = (getEncryptedDataKeys ttl2 st2 id none).2.table := by
        rw [ht1, ht2, hTab]
      obtain ⟨ho, ht⟩ := ih _ _ htab2 hs1 hs2
      rw [run_get, run_get]
      exact ⟨by rw [hhead, ho], ht⟩
    | setEv id keys =>
      obtain ⟨hr1, ht1, hs1⟩ := set_agrees ttl1 st1 id keys h1
      obtain ⟨hr2, ht2, hs2⟩ := set_agrees ttl2 st2 id keys h2
      have hhead : (setEncryptedDataKeysConditionally ttl1 st1 id keys none).1
          = (setEncryptedDataKeysConditionally ttl2 st2 id keys none).1 := by
        rw [hr1, hr2, hTab]
      have htab2 : (setEncryptedDataKeysConditionally ttl1 st1 id keys none).2.table
          = (setEncryptedDataKeysConditionally ttl2 st2 id keys none).2.table := by
        rw [ht1, ht2, hTab]
      obtain ⟨ho, ht⟩ := ih _ _ htab2 hs1 hs2
      rw [run_set, run_set]
      exact ⟨by rw [hhead, ho], ht⟩
    | tick d =>
      rw [run_tick, run_tick]
      exact ih _ _ hTab h1 h2

/-- C8: cache transparency: running any fault-free sequence of reads,
conditional writes, and time passage from a fresh store (empty cache) over
an arbitrary durable table produces the same externally observed results
with a configured TTL of 0 as with any other TTL; only which calls reach
the backend can differ. -/
theorem cacheTransparency (ttl : Nat) (table : List (String × RawItem))
    (evs : List Event) :
    (run 0 { table := table, cache := [], now := 0 } evs).1
      = (run ttl { table := table, cache := [], now := 0 } evs).1 :=
  (run_obs_agree 0 ttl evs _ _ rfl
    (fun e he => absurd he (List.not_mem_nil e))
    (fun e he => absurd he (List.not_mem_nil e))).1
